import Mathlib

/-!
Verification of the gork-bot conversation pipeline against its specification.

The Python sources are shallowly embedded: strings are `List Char`, Python
`int` is `Int`, timestamps are integer seconds, `datetime` subtraction
followed by `total_seconds()` is integer subtraction, fallible code returns
`Except`, and `None`-able values are `Option`.  Randomness
(`random.choice`) is modelled by an explicit choice-function parameter, and
the external search transport by explicit response data passed in.
-/

/-! ## Rate limiting (`gork_bot/user_manager.py`, duplicated verbatim in
`gork_bot/response_handling.py` and `gork_bot/response_handling/types.py`) -/

/-- Embeds the fields of `BotConfig` (`gork_bot/config.py`) that the rate
limiter and the response handler read. -/
structure BotConfig where
  admins : List Int
  channel_whitelist : List Int
  enable_whitelist : Bool
  allowed_messages_per_interval : Int
  timeout_interval_mins : Int
  deriving Repr, DecidableEq

/-- `BotConfig.is_admin`: membership of the author id in the admin set. -/
def BotConfig.is_admin (config : BotConfig) (user_id : Int) : Bool :=
  config.admins.contains user_id

/-- `BotConfig.can_message_channel`: whitelist check on the channel id. -/
def BotConfig.can_message_channel (config : BotConfig) (channel_id : Int) : Bool :=
  if config.enable_whitelist then config.channel_whitelist.contains channel_id
  else true

/-- Per-user rate state (`UserInfo.__init__`): message count in the current
window and the window-start timestamp (`None` before the first message). -/
structure UserInfo where
  user_id : Int
  name : List Char
  messages_in_last_hour : Int
  last_message_time : Option Int
  deriving Repr, DecidableEq

/-- `UserInfo(user_id, name)`: fresh state with a zero count and no window. -/
def UserInfo.new (user_id : Int) (name : List Char) : UserInfo :=
  { user_id := user_id, name := name, messages_in_last_hour := 0,
    last_message_time := none }

/-- `UserInfo.update_message_stats(message, config)`: admins pass through
without mutation; otherwise reset the window when there is no prior window
or the elapsed seconds strictly exceed `60 * timeout_interval_mins`, else
increment the in-window count; the verdict is
`messages_in_last_hour <= allowed_messages_per_interval` on the updated
state.  Returns the updated state together with the verdict. -/
def UserInfo.update_message_stats (self : UserInfo) (author_id : Int)
    (message_time : Int) (config : BotConfig) : UserInfo × Bool :=
  if config.is_admin author_id then (self, true)
  else
    let window_elapsed : Bool :=
      match self.last_message_time with
      | none => true
      | some t => decide (message_time - t > 60 * config.timeout_interval_mins)
    let updated : UserInfo :=
      if window_elapsed then
        { self with messages_in_last_hour := 1, last_message_time := some message_time }
      else
        { self with messages_in_last_hour := self.messages_in_last_hour + 1 }
    (updated, decide (updated.messages_in_last_hour ≤ config.allowed_messages_per_interval))

/-- C1: for a non-admin author the limiter is a fixed-window counter: with no
prior window or a strictly elapsed window it resets the count to 1, moves the
window start to the message timestamp and admits iff the limit is at least 1;
inside the window it increments the count, keeps the window start and admits
iff the new count is within the limit; consequently the (N+1)-th in-window
message under limit N is denied and the first message after the window
elapses is admitted with the count reset to 1. -/
theorem C1_fixed_window_rate_limiter
    (u : UserInfo) (author_id message_time : Int) (config : BotConfig)
    (hna : config.is_admin author_id = false) :
    ((u.last_message_time = none ∨
        (∃ t, u.last_message_time = some t ∧
          message_time - t > 60 * config.timeout_interval_mins)) →
      ((u.update_message_stats author_id message_time config).1.messages_in_last_hour = 1 ∧
       (u.update_message_stats author_id message_time config).1.last_message_time =
         some message_time ∧
       ((u.update_message_stats author_id message_time config).2 = true ↔
         1 ≤ config.allowed_messages_per_interval)))
    ∧ (∀ t, u.last_message_time = some t →
        message_time - t ≤ 60 * config.timeout_interval_mins →
      ((u.update_message_stats author_id message_time config).1.messages_in_last_hour =
         u.messages_in_last_hour + 1 ∧
       (u.update_message_stats author_id message_time config).1.last_message_time =
         u.last_message_time ∧
       ((u.update_message_stats author_id message_time config).2 = true ↔
         u.messages_in_last_hour + 1 ≤ config.allowed_messages_per_interval)))
    ∧ (∀ t, u.last_message_time = some t →
        message_time - t ≤ 60 * config.timeout_interval_mins →
        u.messages_in_last_hour = config.allowed_messages_per_interval →
      (u.update_message_stats author_id message_time config).2 = false)
    ∧ (∀ t, u.last_message_time = some t →
        message_time - t > 60 * config.timeout_interval_mins →
        1 ≤ config.allowed_messages_per_interval →
      ((u.update_message_stats author_id message_time config).2 = true ∧
       (u.update_message_stats author_id message_time config).1.messages_in_last_hour = 1)) := by
  unfold UserInfo.update_message_stats
  rw [hna]
  simp only [Bool.false_eq_true, if_false]
  refine ⟨?_, ?_, ?_, ?_⟩
  · rintro (hnone | ⟨t, ht, helapsed⟩)
    · simp [hnone]
    · simp [ht, helapsed]
  · intro t ht hle
    have : ¬ (message_time - t > 60 * config.timeout_interval_mins) := by omega
    simp [ht, this]
  · intro t ht hle hcount
    have : ¬ (message_time - t > 60 * config.timeout_interval_mins) := by omega
    simp [ht, this]
    omega
  · intro t ht hgt hallowed
    simp [ht, hgt]
    omega

/-- Witness for C1 at a concrete input: a non-admin user with 3 prior
in-window messages under limit 3 sends a 4th message 10 seconds later and is
denied. -/
theorem C1_fixed_window_rate_limiter_witness :
    (UserInfo.update_message_stats
      { user_id := 7, name := [], messages_in_last_hour := 3,
        last_message_time := some 100 } 7 110
      { admins := [], channel_whitelist := [], enable_whitelist := true,
        allowed_messages_per_interval := 3, timeout_interval_mins := 10 }).2 = false := by
  have h := C1_fixed_window_rate_limiter
    { user_id := 7, name := [], messages_in_last_hour := 3, last_message_time := some 100 }
    7 110
    { admins := [], channel_whitelist := [], enable_whitelist := true,
      allowed_messages_per_interval := 3, timeout_interval_mins := 10 }
    (by decide)
  exact h.2.2.1 100 rfl (by decide) (by decide)

/-! ## Response handling (`gork_bot/response_handling.py`)

`ResponseHandler.handle_response` is embedded as a trace semantics: the
result is the list of outward actions performed, in order, together with an
optional raised error message.  Discord's `ChannelType.private` is embedded
as the constructor `dm`. -/

/-- Channel kinds the handler dispatches on. -/
inductive ChannelType
  | text
  | dm
  | public_thread
  | private_thread
  | voice
  deriving Repr, DecidableEq

/-- Outward actions of `ResponseHandler`: the testing notice, the rate-limit
notice, a `Message.create_thread` call, and a generation request issued by
`__generate_response` (with its `should_reply` delivery flag). -/
inductive HandlerAction
  | sendTestingNotice
  | sendRateLimitNotice
  | createThread (thread_name : List Char)
  | generate (should_reply : Bool)
  deriving Repr, DecidableEq

/-- The fields of a `ParsedMessage` in the fetched history that
`__handle_reply_response` and `__create_thread` read. -/
structure ParsedMsg where
  author : List Char
  from_this_bot : Bool
  deriving Repr, DecidableEq

/-- `ResponseHandler.__rate_limit_check`: lazily create the author's
`UserInfo`, then delegate to `update_message_stats`.  Returns the updated
user map together with the verdict. -/
def ResponseHandler.rate_limit_check (user_info : List (Int × UserInfo))
    (author_id : Int) (author_name : List Char) (message_time : Int)
    (config : BotConfig) : List (Int × UserInfo) × Bool :=
  let stored : UserInfo :=
    match user_info.lookup author_id with
    | some u => u
    | none => UserInfo.new author_id author_name
  let result := stored.update_message_stats author_id message_time config
  ((author_id, result.1) :: user_info.eraseP (fun p => p.1 == author_id), result.2)

/-- `ResponseHandler.__create_thread`: no referenced bot message means no
thread; otherwise a thread named after the requesting user is created. -/
def ResponseHandler.create_thread (requestor : List Char)
    (referenced_message : ParsedMsg) : List HandlerAction :=
  if !referenced_message.from_this_bot then []
  else
    [HandlerAction.createThread (("Follow-up Discussion with ".data) ++ requestor)]

/-- `ResponseHandler.__handle_reply_response`: with a reply chain (history
longer than one message) create a thread from the referenced message and
generate without replying; otherwise generate as a direct reply. -/
def ResponseHandler.handle_reply_response (channel_type : ChannelType)
    (requestor : List Char) (history : List ParsedMsg) :
    List HandlerAction × Option (List Char) :=
  if channel_type ≠ ChannelType.text then
    ([], some ("Unsupported ChannelType for reply response".data))
  else
    match history with
    | m0 :: _ :: _ =>
        (ResponseHandler.create_thread requestor m0 ++ [HandlerAction.generate false],
         none)
    | _ => ([HandlerAction.generate true], none)

/-- `ResponseHandler.__handle_direct_response`: generate without a reply
reference, for DM and thread channels only. -/
def ResponseHandler.handle_direct_response (channel_type : ChannelType) :
    List HandlerAction × Option (List Char) :=
  if channel_type ≠ ChannelType.dm ∧ channel_type ≠ ChannelType.public_thread ∧
      channel_type ≠ ChannelType.private_thread then
    ([], some ("Unsupported ChannelType for direct response".data))
  else
    ([HandlerAction.generate false], none)

/-- `ResponseHandler.handle_response`: testing short-circuits; the rate-limit
check sends a notice on denial (the source does not return there); then the
channel-kind dispatch runs the reply or direct path. -/
def ResponseHandler.handle_response (testing : Bool)
    (user_info : List (Int × UserInfo)) (author_id : Int)
    (author_name : List Char) (message_time : Int) (config : BotConfig)
    (channel_type : ChannelType) (bot_mentioned : Bool) (channel_id : Int)
    (owner_is_bot : Bool) (requestor : List Char) (history : List ParsedMsg) :
    List HandlerAction × Option (List Char) :=
  if testing then ([HandlerAction.sendTestingNotice], none)
  else
    let rl := ResponseHandler.rate_limit_check user_info author_id author_name
      message_time config
    let notices : List HandlerAction :=
      if rl.2 then [] else [HandlerAction.sendRateLimitNotice]
    match channel_type with
    | ChannelType.text =>
        if !(bot_mentioned && config.can_message_channel channel_id) then
          (notices, none)
        else
          let sub := ResponseHandler.handle_reply_response ChannelType.text
            requestor history
          (notices ++ sub.1, sub.2)
    | ChannelType.dm =>
        let sub := ResponseHandler.handle_direct_response ChannelType.dm
        (notices ++ sub.1, sub.2)
    | ChannelType.public_thread =>
        if !owner_is_bot then (notices, none)
        else
          let sub := ResponseHandler.handle_direct_response ChannelType.public_thread
          (notices ++ sub.1, sub.2)
    | ChannelType.private_thread =>
        if !owner_is_bot then (notices, none)
        else
          let sub := ResponseHandler.handle_direct_response ChannelType.private_thread
          (notices ++ sub.1, sub.2)
    | _ => (notices, some ("Unsupported ChannelType encountered".data))

/-- C2: evaluation at the failing input.  A non-admin user already at the
limit (1 message allowed per 10-minute window, count 1, window started at
second 100) sends another message at second 110 in a whitelisted text
channel mentioning the bot: the rate-limit check returns denial, yet
`handle_response` emits the rate-limit notice and then still issues a
generation request, because the source never returns after the notice. -/
theorem C2_denied_message_still_forwarded_to_generation :
    (ResponseHandler.rate_limit_check
      [(5, { user_id := 5, name := "u".data, messages_in_last_hour := 1,
             last_message_time := some 100 })] 5 "u".data 110
      { admins := [], channel_whitelist := [], enable_whitelist := false,
        allowed_messages_per_interval := 1, timeout_interval_mins := 10 }).2 = false
    ∧ ResponseHandler.handle_response false
      [(5, { user_id := 5, name := "u".data, messages_in_last_hour := 1,
             last_message_time := some 100 })] 5 "u".data 110
      { admins := [], channel_whitelist := [], enable_whitelist := false,
        allowed_messages_per_interval := 1, timeout_interval_mins := 10 }
      ChannelType.text true 9 false "u".data [{ author := "u".data, from_this_bot := false }] =
      ([HandlerAction.sendRateLimitNotice, HandlerAction.generate true], none) :=
  ⟨rfl, rfl⟩

/-- C3 counterexample: in a public text channel with a two-message reply
chain whose referenced message was not authored by the bot, no thread is
created (as the claim predicts) but the response is generated with
`should_reply = False`, i.e. it is not delivered as a direct reply
referencing the triggering message, contradicting the claim's "in every
other case ... direct reply" clause. -/
theorem C3_nonbot_reference_is_not_a_direct_reply :
    ResponseHandler.handle_response false [] 5 "u".data 110
      { admins := [], channel_whitelist := [], enable_whitelist := false,
        allowed_messages_per_interval := 1, timeout_interval_mins := 10 }
      ChannelType.text true 9 false "u".data
      [{ author := "alice".data, from_this_bot := false },
       { author := "u".data, from_this_bot := false }] =
      ([HandlerAction.generate false], none)
    ∧ HandlerAction.generate true ∉ [HandlerAction.generate false] :=
  ⟨rfl, by decide⟩

/-- C3 amended: a thread is created exactly when the channel kind is a
public text channel that passes the mention/whitelist gate, the fetched
history is longer than one message, and the referenced (first) history
message was authored by the bot; the response is delivered as a direct
reply referencing the triggering message exactly when the channel is such a
text channel and the history is a single message — with a longer history
whose referenced message is not the bot's, the response is sent to the
channel without a reply reference. -/
theorem C3_thread_creation_policy
    (user_info : List (Int × UserInfo)) (author_id : Int)
    (author_name : List Char) (message_time : Int) (config : BotConfig)
    (channel_type : ChannelType) (bot_mentioned : Bool) (channel_id : Int)
    (owner_is_bot : Bool) (requestor : List Char) (history : List ParsedMsg) :
    ((∃ n, HandlerAction.createThread n ∈
        (ResponseHandler.handle_response false user_info author_id author_name
          message_time config channel_type bot_mentioned channel_id
          owner_is_bot requestor history).1) ↔
      (channel_type = ChannelType.text ∧
       (bot_mentioned && config.can_message_channel channel_id) = true ∧
       1 < history.length ∧
       history.head?.map ParsedMsg.from_this_bot = some true))
    ∧ (HandlerAction.generate true ∈
        (ResponseHandler.handle_response false user_info author_id author_name
          message_time config channel_type bot_mentioned channel_id
          owner_is_bot requestor history).1 ↔
      (channel_type = ChannelType.text ∧
       (bot_mentioned && config.can_message_channel channel_id) = true ∧
       history.length ≤ 1)) := by
  simp only [ResponseHandler.handle_response]
  cases channel_type
  case text =>
    cases hg : bot_mentioned && config.can_message_channel channel_id
    · simp [hg]
    · rcases history with _ | ⟨⟨a0, fb0⟩, _ | ⟨m1, rest⟩⟩ <;>
      (try cases fb0) <;>
      cases hrl : (ResponseHandler.rate_limit_check user_info author_id author_name
          message_time config).2 <;>
      simp [hg, hrl, ResponseHandler.handle_reply_response,
        ResponseHandler.create_thread]
  case dm =>
    cases hrl : (ResponseHandler.rate_limit_check user_info author_id author_name
        message_time config).2 <;>
      simp [hrl, ResponseHandler.handle_direct_response]
  case public_thread =>
    cases owner_is_bot <;>
    cases hrl : (ResponseHandler.rate_limit_check user_info author_id author_name
        message_time config).2 <;>
      simp [hrl, ResponseHandler.handle_direct_response]
  case private_thread =>
    cases owner_is_bot <;>
    cases hrl : (ResponseHandler.rate_limit_check user_info author_id author_name
        message_time config).2 <;>
      simp [hrl, ResponseHandler.handle_direct_response]
  case voice =>
    cases hrl : (ResponseHandler.rate_limit_check user_info author_id author_name
        message_time config).2 <;>
      simp [hrl]

/-! ## Streaming delivery (`gork_bot/bot.py`, `GorkBot.handle_streaming_output`)

The event loop over the generation stream is embedded as a step function on
the loop state (the sent message's current content, the accumulated text,
and the time of the last edit) consuming timestamped events; each step may
emit one outbound platform call (an initial send or an edit). -/

/-- The two stream event kinds the loop dispatches on
(`ResponseTextDeltaEvent` / `ResponseTextDoneEvent`). -/
inductive StreamEvent
  | textDelta (delta : List Char)
  | textDone (text : List Char)
  deriving Repr, DecidableEq

/-- Loop state: `response` is the content of the single outbound message
(`none` before the first send), `text_so_far` is `partial_response`, and
`last_edit` is the time of the last send/edit. -/
structure StreamState where
  response : Option (List Char)
  text_so_far : List Char
  last_edit : Int
  deriving Repr, DecidableEq

/-- Outbound platform calls made by the loop body. -/
inductive EditAction
  | send (content : List Char)
  | edit (content : List Char)
  deriving Repr, DecidableEq

/-- State at loop entry: no message sent, empty accumulator, `last_edit = 0`. -/
def StreamState.initial : StreamState :=
  { response := none, text_so_far := [], last_edit := 0 }

/-- One iteration of the `for chunk in ...` loop: a delta appends to the
accumulator and sends the first message or edits when more than
`stream_edit_interval_secs` elapsed since the last edit; the done event
overwrites the accumulator with the authoritative full text and always
sends or edits. -/
def handle_streaming_step (stream_edit_interval_secs : Int) (st : StreamState)
    (now : Int) (chunk : StreamEvent) : StreamState × Option EditAction :=
  match chunk with
  | StreamEvent.textDelta d =>
      let t := st.text_so_far ++ d
      match st.response with
      | none =>
          ({ response := some t, text_so_far := t, last_edit := now },
           some (EditAction.send t))
      | some _ =>
          if now - st.last_edit > stream_edit_interval_secs then
            ({ response := some t, text_so_far := t, last_edit := now },
             some (EditAction.edit t))
          else
            ({ st with text_so_far := t }, none)
  | StreamEvent.textDone text =>
      match st.response with
      | none =>
          ({ st with response := some text, text_so_far := text },
           some (EditAction.send text))
      | some _ =>
          ({ st with response := some text, text_so_far := text },
           some (EditAction.edit text))

/-- The whole loop over a timestamped event sequence, collecting the
outbound calls in order. -/
def handle_streaming_output (stream_edit_interval_secs : Int)
    (st : StreamState) (events : List (Int × StreamEvent)) :
    StreamState × List EditAction :=
  match events with
  | [] => (st, [])
  | (now, chunk) :: rest =>
      let step := handle_streaming_step stream_edit_interval_secs st now chunk
      let k := handle_streaming_output stream_edit_interval_secs step.1 rest
      (k.1, (match step.2 with | some a => [a] | none => []) ++ k.2)

/-- Splitting the event list: the final state of a run over `evs ++ [e]` is
one step from the final state of the run over `evs`. -/
theorem handle_streaming_output_append_last
    (interval : Int) (st : StreamState) (evs : List (Int × StreamEvent))
    (tm : Int) (ev : StreamEvent) :
    (handle_streaming_output interval st (evs ++ [(tm, ev)])).1 =
      (handle_streaming_step interval
        (handle_streaming_output interval st evs).1 tm ev).1 := by
  induction evs generalizing st with
  | nil => rfl
  | cons e rest ih =>
      obtain ⟨tn, en⟩ := e
      simp only [List.cons_append, handle_streaming_output]
      exact ih _

/-- C4: for any timestamped delta events followed by a terminal completion
event, the final content of the single outbound message is exactly the
completion event's full text; a delta only ever edits when at least the
configured stream-edit interval elapsed since the last edit, while the
completion event sends or edits unconditionally and installs its text. -/
theorem C4_streaming_reconciliation
    (interval : Int) (delta_events : List (Int × List Char))
    (done_time : Int) (done_text : List Char) :
    ((handle_streaming_output interval StreamState.initial
        (delta_events.map (fun p => (p.1, StreamEvent.textDelta p.2)) ++
          [(done_time, StreamEvent.textDone done_text)])).1.response =
      some done_text)
    ∧ (∀ (st : StreamState) (now : Int) (d : List Char) (st' : StreamState)
        (c : List Char),
        handle_streaming_step interval st now (StreamEvent.textDelta d) =
          (st', some (EditAction.edit c)) →
        now - st.last_edit ≥ interval)
    ∧ (∀ (st : StreamState) (now : Int) (text : List Char),
        (handle_streaming_step interval st now (StreamEvent.textDone text)).2 ≠
          none ∧
        (handle_streaming_step interval st now
          (StreamEvent.textDone text)).1.response = some text) := by
  refine ⟨?_, ?_, ?_⟩
  · rw [handle_streaming_output_append_last]
    cases hr : (handle_streaming_output interval StreamState.initial
        (delta_events.map (fun p => (p.1, StreamEvent.textDelta p.2)))).1.response <;>
      simp [handle_streaming_step, hr]
  · intro st now d st' c heq
    cases hr : st.response with
    | none => simp [handle_streaming_step, hr] at heq
    | some v =>
        rw [handle_streaming_step] at heq
        simp only [hr] at heq
        by_cases hcond : now - st.last_edit > interval
        · omega
        · simp [hcond] at heq
  · intro st now text
    cases hr : st.response <;> simp [handle_streaming_step, hr]

/-- Witness for C4 at concrete inputs: deltas "He", "llo" at seconds 0 and 1
followed by completion text "Hello!" at second 2 leave the outbound message
with content "Hello!"; and a delta arriving 5 seconds after the last edit
under a 1-second interval edits, with 5 - 0 at least 1. -/
theorem C4_streaming_reconciliation_witness :
    ((handle_streaming_output 1 StreamState.initial
        ([(0, "He".data), (1, "llo".data)].map
          (fun p => (p.1, StreamEvent.textDelta p.2)) ++
          [(2, StreamEvent.textDone "Hello!".data)])).1.response =
      some "Hello!".data)
    ∧ (5 - (0 : Int) ≥ 1) := by
  constructor
  · exact (C4_streaming_reconciliation 1 [(0, "He".data), (1, "llo".data)] 2
      "Hello!".data).1
  · exact (C4_streaming_reconciliation 1 [(0, "He".data), (1, "llo".data)] 2
      "Hello!".data).2.1
      { response := some "H".data, text_so_far := "H".data, last_edit := 0 }
      5 "e".data
      { response := some "He".data, text_so_far := "He".data, last_edit := 5 }
      "He".data rfl

/-! ## Media directives (`gork_bot/ai_service/types.py`, class `Response`)

The directive pattern is the regular expression `%%([^%]+)%%`.  Its scan
semantics (leftmost match, continue after the match, advance one character
on failure) is embedded by `tryMatch`/`scan_keyword_tags`: a match at a
position needs two percent signs, then a nonempty run of non-percent
characters, then two percent signs.  Greedy backtracking never yields a
different match: the run is maximal, and shortening it would require the
closing two percent signs to start at a non-percent character.
`scan_keyword_tags` returns both the captured keywords (`findall`) and the
text with the matched spans removed (`re.sub` with an empty replacement).
The scanner recurses on fuel so that it evaluates by reduction; the fuel is
set to the text length, which `scan_tags_fuel_congr` shows is enough. -/

/-- One match attempt of `%%([^%]+)%%` at the head of the text: on success,
the captured keyword and the text after the match. -/
def tryMatch (cs : List Char) : Option (List Char × List Char) :=
  match cs with
  | c1 :: c2 :: rest =>
      if c1 = '%' ∧ c2 = '%' then
        match rest.takeWhile (fun c => c ≠ '%'), rest.dropWhile (fun c => c ≠ '%') with
        | [], _ => none
        | body, d1 :: d2 :: rest3 =>
            if d1 = '%' ∧ d2 = '%' then some (body, rest3) else none
        | _, _ => none
      else none
  | _ => none

/-- The scan loop with explicit fuel (a termination device only). -/
def scan_tags_fuel : Nat → List Char → List (List Char) × List Char
  | _, [] => ([], [])
  | 0, cs => ([], cs)
  | Nat.succ n, c :: cs =>
      match tryMatch (c :: cs) with
      | some (k, rest) =>
          let r := scan_tags_fuel n rest
          (k :: r.1, r.2)
      | none =>
          let r := scan_tags_fuel n cs
          (r.1, c :: r.2)

/-- A successful match consumes at least five characters. -/
theorem tryMatch_length {cs k rest : List Char}
    (h : tryMatch cs = some (k, rest)) : rest.length + 5 ≤ cs.length := by
  match cs with
  | [] => simp [tryMatch] at h
  | [c1] => simp [tryMatch] at h
  | c1 :: c2 :: r =>
      rw [tryMatch] at h
      by_cases hpp : c1 = '%' ∧ c2 = '%'
      · simp only [hpp, if_true] at h
        have hsplit : r.takeWhile (fun c => decide (c ≠ '%')) ++
            r.dropWhile (fun c => decide (c ≠ '%')) = r :=
          List.takeWhile_append_dropWhile (p := fun c => decide (c ≠ '%')) (l := r)
        rcases htk : r.takeWhile (fun c => c ≠ '%') with _ | ⟨b0, body⟩
        · rw [htk] at h; simp at h
        · rcases hdr : r.dropWhile (fun c => c ≠ '%') with _ | ⟨d1, dr⟩
          · rw [htk, hdr] at h; simp at h
          · rcases dr with _ | ⟨d2, rest3⟩
            · rw [htk, hdr] at h; simp at h
            · rw [htk, hdr] at h
              by_cases hdd : d1 = '%' ∧ d2 = '%'
              · simp only [hdd, if_true, Option.some.injEq, Prod.mk.injEq] at h
                obtain ⟨hk, hrest⟩ := h
                have hlen := congrArg List.length hsplit
                rw [htk, hdr] at hlen
                simp only [List.length_append, List.length_cons] at hlen ⊢
                omega
              · simp [hdd] at h
      · simp [hpp] at h

/-- The fuel is irrelevant as soon as it covers the text length. -/
theorem scan_tags_fuel_congr :
    ∀ (n₁ n₂ : Nat) (cs : List Char), cs.length ≤ n₁ → cs.length ≤ n₂ →
      scan_tags_fuel n₁ cs = scan_tags_fuel n₂ cs := by
  intro n₁
  induction n₁ using Nat.strong_induction_on with
  | _ n₁ ih =>
    intro n₂ cs h₁ h₂
    match cs with
    | [] => cases n₁ <;> cases n₂ <;> rfl
    | c :: cs' =>
      match n₁, n₂ with
      | 0, _ => simp at h₁
      | Nat.succ m₁, 0 => simp at h₂
      | Nat.succ m₁, Nat.succ m₂ =>
        rw [scan_tags_fuel, scan_tags_fuel]
        cases htm : tryMatch (c :: cs') with
        | some kr =>
            obtain ⟨k, rest⟩ := kr
            have hlen := tryMatch_length htm
            simp only [List.length_cons] at hlen h₁ h₂
            have e1 : scan_tags_fuel m₁ rest = scan_tags_fuel m₂ rest := by
              have h₁' : rest.length ≤ m₁ := by omega
              have hm₁ : rest.length < Nat.succ m₁ := by omega
              have := ih rest.length (by omega) m₁ rest (le_refl _) h₁'
              have h₂' : rest.length ≤ m₂ := by omega
              have h2step := ih rest.length (by omega) m₂ rest (le_refl _) h₂'
              rw [← this, h2step]
            simp [e1]
        | none =>
            have e1 : scan_tags_fuel m₁ cs' = scan_tags_fuel m₂ cs' := by
              simp only [List.length_cons] at h₁ h₂
              have := ih cs'.length (by omega) m₁ cs' (le_refl _) (by omega)
              have h2step := ih cs'.length (by omega) m₂ cs' (le_refl _) (by omega)
              rw [← this, h2step]
            simp [e1]

/-- The scan of the whole text (`findall` captures and `re.sub` residue). -/
def scan_keyword_tags (cs : List Char) : List (List Char) × List Char :=
  scan_tags_fuel cs.length cs

/-- Step equation of the scanner on a successful head match. -/
theorem scan_keyword_tags_cons_some {c : Char} {cs k rest : List Char}
    (h : tryMatch (c :: cs) = some (k, rest)) :
    scan_keyword_tags (c :: cs) =
      (k :: (scan_keyword_tags rest).1, (scan_keyword_tags rest).2) := by
  have hlen := tryMatch_length h
  simp only [List.length_cons] at hlen
  rw [scan_keyword_tags, scan_keyword_tags]
  simp only [List.length_cons]
  rw [scan_tags_fuel]
  rw [h]
  have : scan_tags_fuel cs.length rest = scan_tags_fuel rest.length rest :=
    scan_tags_fuel_congr cs.length rest.length rest (by omega) (le_refl _)
  simp [this]

/-- Step equation of the scanner on a failed head match. -/
theorem scan_keyword_tags_cons_none {c : Char} {cs : List Char}
    (h : tryMatch (c :: cs) = none) :
    scan_keyword_tags (c :: cs) =
      ((scan_keyword_tags cs).1, c :: (scan_keyword_tags cs).2) := by
  rw [scan_keyword_tags, scan_keyword_tags]
  simp only [List.length_cons]
  rw [scan_tags_fuel]
  rw [h]

/-- The scanner on the empty text. -/
theorem scan_keyword_tags_nil : scan_keyword_tags [] = ([], []) := rfl

/-- `dropWhile` distributes over an append when it stops inside the first
part. -/
theorem dropWhile_append_of_ne {p : Char → Bool} (x w : List Char)
    (h : x.dropWhile p ≠ []) :
    (x ++ w).dropWhile p = x.dropWhile p ++ w := by
  induction x with
  | nil => simp at h
  | cons c x' ih =>
      by_cases hc : p c
      · rw [List.dropWhile_cons_of_pos hc] at h
        rw [List.cons_append, List.dropWhile_cons_of_pos hc,
          List.dropWhile_cons_of_pos hc]
        exact ih h
      · rw [List.cons_append, List.dropWhile_cons_of_neg hc,
          List.dropWhile_cons_of_neg hc, List.cons_append]

/-- `takeWhile` ignores an appended tail when the scan stops inside the
first part. -/
theorem takeWhile_append_of_ne {p : Char → Bool} (x w : List Char)
    (h : x.dropWhile p ≠ []) :
    (x ++ w).takeWhile p = x.takeWhile p := by
  induction x with
  | nil => simp at h
  | cons c x' ih =>
      by_cases hc : p c
      · rw [List.dropWhile_cons_of_pos hc] at h
        rw [List.cons_append, List.takeWhile_cons_of_pos hc,
          List.takeWhile_cons_of_pos hc, ih h]
      · rw [List.cons_append, List.takeWhile_cons_of_neg hc,
          List.takeWhile_cons_of_neg hc]

/-- `dropWhile` over an append whose first part is fully consumed. -/
theorem dropWhile_append_of_all {p : Char → Bool} (x w : List Char)
    (h : ∀ c ∈ x, p c = true) :
    (x ++ w).dropWhile p = w.dropWhile p := by
  induction x with
  | nil => simp
  | cons c x' ih =>
      have hc : p c = true := h c (List.mem_cons_self c x')
      rw [List.cons_append, List.dropWhile_cons_of_pos hc]
      exact ih (fun d hd => h d (List.mem_cons_of_mem c hd))

/-- `takeWhile` over an append whose first part is fully consumed. -/
theorem takeWhile_append_of_all {p : Char → Bool} (x w : List Char)
    (h : ∀ c ∈ x, p c = true) :
    (x ++ w).takeWhile p = x ++ w.takeWhile p := by
  induction x with
  | nil => simp
  | cons c x' ih =>
      have hc : p c = true := h c (List.mem_cons_self c x')
      rw [List.cons_append, List.takeWhile_cons_of_pos hc,
        ih (fun d hd => h d (List.mem_cons_of_mem c hd)), List.cons_append]

/-- The head of a `dropWhile` residue fails the predicate. -/
theorem dropWhile_head_false {p : Char → Bool} {l : List Char} {d : Char}
    {dr : List Char} (h : l.dropWhile p = d :: dr) : p d = false := by
  induction l with
  | nil => simp at h
  | cons c l' ih =>
      by_cases hc : p c
      · rw [List.dropWhile_cons_of_pos hc] at h
        exact ih h
      · rw [List.dropWhile_cons_of_neg hc] at h
        cases h
        simp only [Bool.not_eq_true] at hc
        exact hc

/-- `rdropWhile` ignores an appended all-satisfying tail. -/
theorem rdropWhile_append_of_all {p : Char → Bool} (w : List Char)
    (hw : ∀ c ∈ w, p c = true) (y : List Char) :
    List.rdropWhile p (y ++ w) = List.rdropWhile p y := by
  induction w using List.reverseRecOn with
  | nil => simp
  | append_singleton w' a ih =>
      have ha : p a = true := hw a (by simp)
      rw [← List.append_assoc, List.rdropWhile_concat_pos p (y ++ w') a ha]
      exact ih (fun c hc => hw c (by simp [hc]))

/-- `str.strip()` on Python strings: remove leading and trailing
whitespace. -/
def py_strip (cs : List Char) : List Char :=
  List.rdropWhile Char.isWhitespace (cs.dropWhile Char.isWhitespace)

/-- Stripping is idempotent. -/
theorem py_strip_idem (cs : List Char) : py_strip (py_strip cs) = py_strip cs := by
  unfold py_strip
  have h1 : (List.rdropWhile Char.isWhitespace
      (cs.dropWhile Char.isWhitespace)).dropWhile Char.isWhitespace =
      List.rdropWhile Char.isWhitespace (cs.dropWhile Char.isWhitespace) := by
    rcases hrd : List.rdropWhile Char.isWhitespace
        (cs.dropWhile Char.isWhitespace) with _ | ⟨d, dr⟩
    · simp
    · obtain ⟨r, hr⟩ := List.rdropWhile_prefix Char.isWhitespace
        (cs.dropWhile Char.isWhitespace)
      rw [hrd] at hr
      have hdrop : cs.dropWhile Char.isWhitespace = d :: (dr ++ r) := by
        rw [← hr]; rfl
      have hd := dropWhile_head_false hdrop
      rw [List.dropWhile_cons_of_neg (by simp [hd])]
  rw [h1, List.rdropWhile_idempotent]

/-- Stripping absorbs an all-whitespace prefix. -/
theorem py_strip_append_ws_left (w x : List Char)
    (hw : ∀ c ∈ w, Char.isWhitespace c = true) :
    py_strip (w ++ x) = py_strip x := by
  unfold py_strip
  rw [dropWhile_append_of_all w x hw]

/-- Stripping absorbs an all-whitespace suffix. -/
theorem py_strip_append_ws_right (x w : List Char)
    (hw : ∀ c ∈ w, Char.isWhitespace c = true) :
    py_strip (x ++ w) = py_strip x := by
  unfold py_strip
  by_cases hx : x.dropWhile Char.isWhitespace = []
  · have hall : ∀ c ∈ x, Char.isWhitespace c = true :=
      List.dropWhile_eq_nil_iff.mp hx
    rw [hx, dropWhile_append_of_all x _ hall,
      List.dropWhile_eq_nil_iff.mpr hw]
  · rw [dropWhile_append_of_ne x w hx,
      rdropWhile_append_of_all w hw]

/-- No match starts at a non-percent character. -/
theorem tryMatch_none_of_head {c : Char} (cs : List Char) (h : c ≠ '%') :
    tryMatch (c :: cs) = none := by
  cases cs with
  | nil => rfl
  | cons c2 r => simp [tryMatch, h]

/-- A text without percent signs has no matches at all. -/
theorem tryMatch_none_of_no_pct (cs : List Char)
    (h : ∀ c ∈ cs, c ≠ '%') : tryMatch cs = none := by
  cases cs with
  | nil => rfl
  | cons c cs' => exact tryMatch_none_of_head cs' (h c (List.mem_cons_self c cs'))

/-- Membership in a `dropWhile` residue implies membership in the list. -/
theorem mem_of_mem_dropWhile {p : Char → Bool} {l : List Char} {x : Char}
    (h : x ∈ l.dropWhile p) : x ∈ l := by
  induction l with
  | nil => simp at h
  | cons c l' ih =>
      by_cases hc : p c
      · rw [List.dropWhile_cons_of_pos hc] at h
        exact List.mem_cons_of_mem c (ih h)
      · rw [List.dropWhile_cons_of_neg hc] at h
        exact h

/-- A successful head match is unaffected by appending more text. -/
theorem tryMatch_append_some {cs k rest : List Char} (w : List Char)
    (h : tryMatch cs = some (k, rest)) :
    tryMatch (cs ++ w) = some (k, rest ++ w) := by
  match cs with
  | [] => simp [tryMatch] at h
  | [c1] => simp [tryMatch] at h
  | c1 :: c2 :: r =>
      rw [tryMatch] at h
      by_cases hpp : c1 = '%' ∧ c2 = '%'
      · rw [if_pos hpp] at h
        rcases htk : r.takeWhile (fun c => decide (c ≠ '%')) with _ | ⟨b0, body⟩
        · rw [htk] at h; simp at h
        · rcases hdr : r.dropWhile (fun c => decide (c ≠ '%')) with _ | ⟨d1, dr⟩
          · rw [htk, hdr] at h; simp at h
          · rcases dr with _ | ⟨d2, rest3⟩
            · rw [htk, hdr] at h; simp at h
            · rw [htk, hdr] at h
              by_cases hdd : d1 = '%' ∧ d2 = '%'
              · have h' : (if d1 = '%' ∧ d2 = '%' then
                    some (b0 :: body, rest3) else none) = some (k, rest) := h
                rw [if_pos hdd, Option.some.injEq, Prod.mk.injEq] at h'
                obtain ⟨hk, hrest⟩ := h'
                subst hk
                subst hrest
                have hne : r.dropWhile (fun c => decide (c ≠ '%')) ≠ [] := by
                  rw [hdr]; simp
                show tryMatch (c1 :: c2 :: (r ++ w)) = _
                rw [tryMatch, if_pos hpp,
                  takeWhile_append_of_ne r w hne, dropWhile_append_of_ne r w hne,
                  htk, hdr]
                show (if d1 = '%' ∧ d2 = '%' then
                    some (b0 :: body, rest3 ++ w) else none) = _
                rw [if_pos hdd]
              · have h' : (if d1 = '%' ∧ d2 = '%' then
                    some (b0 :: body, rest3) else none) = some (k, rest) := h
                rw [if_neg hdd] at h'; simp at h'
      · rw [if_neg hpp] at h; simp at h

/-- A failed head match stays failed after appending percent-free text. -/
theorem tryMatch_append_none {cs : List Char} (w : List Char)
    (hw : ∀ c ∈ w, c ≠ '%') (h : tryMatch cs = none) :
    tryMatch (cs ++ w) = none := by
  match cs with
  | [] => exact tryMatch_none_of_no_pct w hw
  | [c1] =>
      cases w with
      | nil => rfl
      | cons e w' =>
          by_cases hc1 : c1 = '%'
          · show tryMatch (c1 :: e :: w') = none
            have he : ¬(c1 = '%' ∧ e = '%') := by
              intro hand
              exact hw e (List.mem_cons_self e w') hand.2
            rw [tryMatch, if_neg he]
          · exact tryMatch_none_of_head (e :: w') hc1
  | c1 :: c2 :: r =>
      rw [tryMatch] at h
      by_cases hpp : c1 = '%' ∧ c2 = '%'
      · rw [if_pos hpp] at h
        show tryMatch (c1 :: c2 :: (r ++ w)) = none
        rw [tryMatch, if_pos hpp]
        rcases htk : r.takeWhile (fun c => decide (c ≠ '%')) with _ | ⟨b0, body⟩
        · cases r with
          | nil =>
              rcases w with _ | ⟨e, w'⟩
              · rfl
              · have he : decide (e ≠ '%') = true := by
                  simp [hw e (List.mem_cons_self e w')]
                have ht : (e :: w').takeWhile (fun c => decide (c ≠ '%')) =
                    e :: w'.takeWhile (fun c => decide (c ≠ '%')) :=
                  List.takeWhile_cons_of_pos he
                have hd : (e :: w').dropWhile (fun c => decide (c ≠ '%')) =
                    w'.dropWhile (fun c => decide (c ≠ '%')) :=
                  List.dropWhile_cons_of_pos he
                rw [List.nil_append, ht, hd]
                rcases hdw : w'.dropWhile (fun c => decide (c ≠ '%')) with _ | ⟨f, fr⟩
                · rfl
                · have hf := dropWhile_head_false hdw
                  have hfmem : f ∈ w' :=
                    mem_of_mem_dropWhile (hdw ▸ List.mem_cons_self f fr)
                  exact absurd (hw f (List.mem_cons_of_mem e hfmem))
                    (by simpa using hf)
          | cons r0 r' =>
              have hr0 : r0 = '%' := by
                by_cases hr0p : r0 = '%'
                · exact hr0p
                · rw [List.takeWhile_cons_of_pos (by simp [hr0p])] at htk
                  simp at htk
              have htake : (r0 :: r' ++ w).takeWhile (fun c => decide (c ≠ '%')) = [] := by
                rw [List.cons_append, List.takeWhile_cons_of_neg (by simp [hr0])]
              rw [htake]
              rcases (r0 :: r' ++ w).dropWhile (fun c => decide (c ≠ '%')) with
                _ | ⟨x, _ | ⟨y, ys⟩⟩ <;> rfl
        · rcases hdr : r.dropWhile (fun c => decide (c ≠ '%')) with _ | ⟨d1, dr⟩
          · have hall : ∀ c ∈ r, (fun c => decide (c ≠ '%')) c = true :=
              List.dropWhile_eq_nil_iff.mp hdr
            have hallw : ∀ c ∈ w, (fun c => decide (c ≠ '%')) c = true := by
              intro c hc; simp [hw c hc]
            have hdall : (r ++ w).dropWhile (fun c => decide (c ≠ '%')) = [] := by
              rw [dropWhile_append_of_all r w hall, List.dropWhile_eq_nil_iff.mpr hallw]
            rw [hdall]
            rcases (r ++ w).takeWhile (fun c => decide (c ≠ '%')) with _ | ⟨x, xs⟩ <;> rfl
          · have hdne : r.dropWhile (fun c => decide (c ≠ '%')) ≠ [] := by
              rw [hdr]; simp
            rw [takeWhile_append_of_ne r w hdne, dropWhile_append_of_ne r w hdne,
              htk, hdr]
            rcases dr with _ | ⟨d2, rest3⟩
            · rcases w with _ | ⟨e, w'⟩
              · rfl
              · have he : ¬(d1 = '%' ∧ e = '%') := by
                  intro hand
                  exact hw e (List.mem_cons_self e w') hand.2
                show (if d1 = '%' ∧ e = '%' then
                    some (b0 :: body, w') else none) = none
                rw [if_neg he]
            · rw [htk, hdr] at h
              have h' : (if d1 = '%' ∧ d2 = '%' then
                  some (b0 :: body, rest3) else none) = none := h
              by_cases hdd : d1 = '%' ∧ d2 = '%'
              · rw [if_pos hdd] at h'; simp at h'
              · show (if d1 = '%' ∧ d2 = '%' then
                    some (b0 :: body, rest3 ++ w) else none) = none
                rw [if_neg hdd]
      · rw [if_neg hpp] at h
        show tryMatch (c1 :: c2 :: (r ++ w)) = none
        rw [tryMatch, if_neg hpp]

/-- A percent-free text scans to no captures and itself. -/
theorem scan_no_pct (cs : List Char) (h : ∀ c ∈ cs, c ≠ '%') :
    scan_keyword_tags cs = ([], cs) := by
  induction cs with
  | nil => rfl
  | cons c cs' ih =>
      rw [scan_keyword_tags_cons_none
          (tryMatch_none_of_head cs' (h c (List.mem_cons_self c cs'))),
        ih (fun d hd => h d (List.mem_cons_of_mem c hd))]

/-- Scanning ignores a percent-free prefix. -/
theorem scan_append_pct_free_left (w : List Char) (hw : ∀ c ∈ w, c ≠ '%')
    (cs : List Char) :
    scan_keyword_tags (w ++ cs) =
      ((scan_keyword_tags cs).1, w ++ (scan_keyword_tags cs).2) := by
  induction w with
  | nil => simp
  | cons c w' ih =>
      rw [List.cons_append,
        scan_keyword_tags_cons_none
          (tryMatch_none_of_head _ (hw c (List.mem_cons_self c w'))),
        ih (fun d hd => hw d (List.mem_cons_of_mem c hd))]
      rfl

/-- Scanning ignores a percent-free suffix. -/
theorem scan_append_pct_free_right (w : List Char) (hw : ∀ c ∈ w, c ≠ '%')
    (cs : List Char) :
    scan_keyword_tags (cs ++ w) =
      ((scan_keyword_tags cs).1, (scan_keyword_tags cs).2 ++ w) := by
  have main : ∀ (n : Nat) (cs : List Char), cs.length ≤ n →
      scan_keyword_tags (cs ++ w) =
        ((scan_keyword_tags cs).1, (scan_keyword_tags cs).2 ++ w) := by
    intro n
    induction n with
    | zero =>
        intro cs hlen
        have hnil : cs = [] := List.length_eq_zero.mp (Nat.le_zero.mp hlen)
        subst hnil
        rw [List.nil_append, scan_no_pct w hw, scan_keyword_tags_nil]
        simp
    | succ n ih =>
        intro cs hlen
        cases cs with
        | nil =>
            rw [List.nil_append, scan_no_pct w hw, scan_keyword_tags_nil]
            simp
        | cons c cs' =>
            cases htm : tryMatch (c :: cs') with
            | some kr =>
                obtain ⟨k, rest⟩ := kr
                have hlen2 := tryMatch_length htm
                have happ : tryMatch (c :: (cs' ++ w)) = some (k, rest ++ w) := by
                  have := tryMatch_append_some w htm
                  rwa [List.cons_append] at this
                rw [List.cons_append, scan_keyword_tags_cons_some happ,
                  scan_keyword_tags_cons_some htm,
                  ih rest (by simp only [List.length_cons] at hlen2 hlen; omega)]
            | none =>
                have happ : tryMatch (c :: (cs' ++ w)) = none := by
                  have := tryMatch_append_none w hw htm
                  rwa [List.cons_append] at this
                rw [List.cons_append, scan_keyword_tags_cons_none happ,
                  scan_keyword_tags_cons_none htm,
                  ih cs' (by simp only [List.length_cons] at hlen; omega)]
                rfl
  exact main cs.length cs (le_refl _)

/-- The residue and the tail-run of whitespace reassemble the list. -/
theorem rdropWhile_append_rtakeWhile (p : Char → Bool) (l : List Char) :
    List.rdropWhile p l ++ List.rtakeWhile p l = l := by
  rw [List.rdropWhile, List.rtakeWhile, ← List.reverse_append,
    List.takeWhile_append_dropWhile, List.reverse_reverse]

/-- Every string splits as leading whitespace, its stripped core, and
trailing whitespace. -/
theorem py_strip_decomposition (s : List Char) :
    s = s.takeWhile Char.isWhitespace ++ py_strip s ++
      List.rtakeWhile Char.isWhitespace (s.dropWhile Char.isWhitespace) := by
  unfold py_strip
  rw [List.append_assoc, rdropWhile_append_rtakeWhile,
    List.takeWhile_append_dropWhile]

/-- Whitespace is never a percent sign. -/
theorem whitespace_ne_pct {c : Char} (h : Char.isWhitespace c = true) :
    c ≠ '%' := by
  intro hc
  subst hc
  exact absurd h (by decide)

/-- `Response.get_text` (`gork_bot/ai_service/types.py`): strip the raw
text, remove every directive match, and strip the result. -/
def Response.get_text (text : List Char) : List Char :=
  py_strip (scan_keyword_tags (py_strip text)).2

/-- `Response.get_text` of the duplicate in `gork_bot/ai_service.py`: strip
the raw text and remove the matches, without the final strip. -/
def Response.get_text_flat (text : List Char) : List Char :=
  (scan_keyword_tags (py_strip text)).2

/-- The display text in the words of the specification: the raw text with
all directive tokens removed and surrounding whitespace trimmed. -/
def display_text_spec (text : List Char) : List Char :=
  py_strip (scan_keyword_tags text).2

/-- Stripping before removing the directive matches does not change the
stripped residue. -/
theorem strip_scan_strip (s : List Char) :
    py_strip (scan_keyword_tags (py_strip s)).2 =
      py_strip (scan_keyword_tags s).2 := by
  have hw1 : ∀ c ∈ s.takeWhile Char.isWhitespace, Char.isWhitespace c = true :=
    fun c hc => List.mem_takeWhile_imp hc
  have hw2 : ∀ c ∈ List.rtakeWhile Char.isWhitespace
      (s.dropWhile Char.isWhitespace), Char.isWhitespace c = true :=
    fun c hc => List.mem_rtakeWhile_imp hc
  have hne1 : ∀ c ∈ s.takeWhile Char.isWhitespace, c ≠ '%' :=
    fun c hc => whitespace_ne_pct (hw1 c hc)
  have hne2 : ∀ c ∈ List.rtakeWhile Char.isWhitespace
      (s.dropWhile Char.isWhitespace), c ≠ '%' :=
    fun c hc => whitespace_ne_pct (hw2 c hc)
  calc py_strip (scan_keyword_tags (py_strip s)).2
      = py_strip (s.takeWhile Char.isWhitespace ++
          (scan_keyword_tags (py_strip s)).2) :=
        (py_strip_append_ws_left _ _ hw1).symm
    _ = py_strip ((s.takeWhile Char.isWhitespace ++
          (scan_keyword_tags (py_strip s)).2) ++
          List.rtakeWhile Char.isWhitespace (s.dropWhile Char.isWhitespace)) :=
        (py_strip_append_ws_right _ _ hw2).symm
    _ = py_strip (scan_keyword_tags
          ((s.takeWhile Char.isWhitespace ++ py_strip s) ++
            List.rtakeWhile Char.isWhitespace
              (s.dropWhile Char.isWhitespace))).2 := by
        rw [scan_append_pct_free_right _ hne2,
          scan_append_pct_free_left _ hne1]
    _ = py_strip (scan_keyword_tags s).2 := by
        rw [← py_strip_decomposition s]

/-- C6 (amended): for every raw text, the packaged post-processor's display
text equals exactly the raw text with every directive token removed and
surrounding whitespace trimmed; by construction the text formatting shares
nothing with media resolution, so this holds whether or not a media URL was
resolved. -/
theorem C6_display_text_strips_and_trims (text : List Char) :
    Response.get_text text = display_text_spec text :=
  strip_scan_strip text

/-- C6 counterexample: the duplicate post-processor in `gork_bot/ai_service.py`
omits the final trim, so on raw text "hi %%x%%" it returns "hi " with a
trailing space where the claim requires the trimmed "hi". -/
theorem C6_flat_get_text_not_trimmed :
    Response.get_text_flat "hi %%x%%".data = "hi ".data ∧
    display_text_spec "hi %%x%%".data = "hi".data ∧
    Response.get_text_flat "hi %%x%%".data ≠
      display_text_spec "hi %%x%%".data := by
  refine ⟨?_, ?_, ?_⟩ <;> decide

/-- A scan without captures leaves the text unchanged. -/
theorem scan_captures_nil {cs : List Char}
    (h : (scan_keyword_tags cs).1 = []) : (scan_keyword_tags cs).2 = cs := by
  induction cs with
  | nil => rfl
  | cons c cs' ih =>
      cases htm : tryMatch (c :: cs') with
      | some kr =>
          obtain ⟨k, rest⟩ := kr
          rw [scan_keyword_tags_cons_some htm] at h
          simp at h
      | none =>
          rw [scan_keyword_tags_cons_none htm] at h ⊢
          rw [ih h]

/-- The output of `get_text` is already stripped. -/
theorem get_text_strip_fixed (s : List Char) :
    py_strip (Response.get_text s) = Response.get_text s := by
  unfold Response.get_text
  exact py_strip_idem _

/-- C9 counterexample: directive stripping is not idempotent.  On the raw
text "%"+"%"+"%"+"%"+"x"+"%"+"%"+"a"+"%"+"%" the single match is the inner
token around "x"; its removal splices the surrounding percent signs into the
fresh token around "a", so one pass yields "%%a%%" and a second pass yields
the empty string. -/
theorem C9_stripping_not_idempotent :
    Response.get_text "%%%%x%%a%%".data = "%%a%%".data ∧
    Response.get_text (Response.get_text "%%%%x%%a%%".data) = [] ∧
    Response.get_text (Response.get_text "%%%%x%%a%%".data) ≠
      Response.get_text "%%%%x%%a%%".data := by
  refine ⟨?_, ?_, ?_⟩ <;> decide

/-- C9 (amended): one pass of the text formatting is idempotent on every
input whose first-pass output contains no residual directive token — token
removal can splice surrounding characters into a new token, and only then
does a second pass strip further. -/
theorem C9_stripping_idempotent_without_residual_tags (s : List Char)
    (h : (scan_keyword_tags (Response.get_text s)).1 = []) :
    Response.get_text (Response.get_text s) = Response.get_text s := by
  conv_lhs => rw [Response.get_text, get_text_strip_fixed s]
  rw [scan_captures_nil h]
  exact get_text_strip_fixed s

/-- Witness for C9's amended statement at a concrete input: "a %%x%%" strips
to "a", which has no residual token, and a second pass leaves "a"
unchanged. -/
theorem C9_stripping_idempotent_witness :
    (scan_keyword_tags (Response.get_text "a %%x%%".data)).1 = [] ∧
    Response.get_text (Response.get_text "a %%x%%".data) =
      Response.get_text "a %%x%%".data :=
  ⟨by decide, C9_stripping_idempotent_without_residual_tags "a %%x%%".data
    (by decide)⟩

/-- `CustomMediaStore.get_gif` (`gork_bot/media_manager.py`): the URLs
stored under a keyword in the local tag index, or the empty list. -/
def CustomMediaStore.get_gif (gifs : List (List Char × List (List Char)))
    (keyword : List Char) : List (List Char) :=
  match gifs.lookup keyword with
  | some urls => urls
  | none => []

/-- `Response.set_gif` (`gork_bot/ai_service/types.py`): find every
directive keyword; the `for` loop's body returns on its very first
iteration — a uniformly random stored URL when the keyword is in the local
index (`random.choice` is modelled by the `choose` parameter), otherwise
whatever the external search produced, possibly nothing. -/
def Response.set_gif (choose : List (List Char) → List Char)
    (internet_gif : List Char → Option (List Char))
    (gifs : List (List Char × List (List Char)))
    (text : List Char) : Option (List Char) :=
  if text ≠ [] then
    match (scan_keyword_tags text).1 with
    | [] => none
    | m :: _ =>
        let gif_links := CustomMediaStore.get_gif gifs m
        if gif_links ≠ [] then some (choose gif_links)
        else internet_gif m
  else none

/-- The claim's resolution policy, written from the specification's words
for comparison with the source's `Response.set_gif`: scan the directives in
order and stop at the first one that resolves to a usable media URL. -/
def set_gif_spec (choose : List (List Char) → List Char)
    (internet_gif : List Char → Option (List Char))
    (gifs : List (List Char × List (List Char)))
    (text : List Char) : Option (List Char) :=
  ((scan_keyword_tags text).1).findSome? (fun m =>
    if CustomMediaStore.get_gif gifs m ≠ [] then
      some (choose (CustomMediaStore.get_gif gifs m))
    else internet_gif m)

/-- C5 counterexample: on the text with the two directives "a" then "b",
where only "b" is in the local index and the external search yields
nothing, the source resolves no media at all, while the claim's policy
(stop at the first directive that resolves to a usable URL) would return
the stored URL for "b"; processing never reaches the second directive. -/
theorem C5_unresolved_first_directive_stops_processing :
    Response.set_gif (fun l => l.headD []) (fun _ => none)
      [("b".data, ["urlB".data])] "%%a%%%%b%%".data = none ∧
    set_gif_spec (fun l => l.headD []) (fun _ => none)
      [("b".data, ["urlB".data])] "%%a%%%%b%%".data = some "urlB".data := by
  constructor <;> decide

/-- C5 (amended): media resolution consults only the first directive: when
its keyword is in the local tag index the result is a uniformly random
stored URL, otherwise the external search's result even when that is no
media; with no directives (or empty text) nothing is resolved — so at most
one media URL is ever returned, locally-indexed keywords never reach the
external search, and directives after the first are never consulted. -/
theorem C5_first_directive_priority_chain
    (choose : List (List Char) → List Char)
    (internet_gif : List Char → Option (List Char))
    (gifs : List (List Char × List (List Char)))
    (text m : List Char) (rest : List (List Char))
    (hm : (scan_keyword_tags text).1 = m :: rest) :
    (CustomMediaStore.get_gif gifs m ≠ [] →
      Response.set_gif choose internet_gif gifs text =
        some (choose (CustomMediaStore.get_gif gifs m)))
    ∧ (CustomMediaStore.get_gif gifs m = [] →
      Response.set_gif choose internet_gif gifs text = internet_gif m)
    ∧ (∀ text2 : List Char, (scan_keyword_tags text2).1 = [] →
      Response.set_gif choose internet_gif gifs text2 = none) := by
  have htext : text ≠ [] := by
    intro hnil
    rw [hnil, scan_keyword_tags_nil] at hm
    simp at hm
  refine ⟨?_, ?_, ?_⟩
  · intro hlocal
    rw [Response.set_gif, if_pos htext, hm]
    simp only [if_pos hlocal]
  · intro hlocal
    rw [Response.set_gif, if_pos htext, hm]
    have : ¬ (CustomMediaStore.get_gif gifs m ≠ []) := by simp [hlocal]
    simp only [if_neg this]
  · intro text2 h2
    by_cases ht2 : text2 = []
    · rw [Response.set_gif, ht2]
      simp
    · rw [Response.set_gif, if_pos ht2, h2]

/-- Witness for C5's amended statement: with the single directive "a",
locally indexed under two URLs, the first stored URL is chosen by the
head-picking model of `random.choice`; and with no directives nothing is
resolved. -/
theorem C5_first_directive_priority_chain_witness :
    Response.set_gif (fun l => l.headD []) (fun _ => none)
      [("a".data, ["u1".data, "u2".data])] "%%a%%".data = some "u1".data ∧
    Response.set_gif (fun l => l.headD []) (fun _ => none)
      [("a".data, ["u1".data, "u2".data])] "plain".data = none := by
  constructor
  · exact (C5_first_directive_priority_chain (fun l => l.headD [])
      (fun _ => none) [("a".data, ["u1".data, "u2".data])]
      "%%a%%".data "a".data [] (by decide)).1 (by decide)
  · exact (C5_first_directive_priority_chain (fun l => l.headD [])
      (fun _ => none) [("a".data, ["u1".data, "u2".data])]
      "%%a%%".data "a".data [] (by decide)).2.2 "plain".data (by decide)

/-! ## External media search (`Response.get_internet_gif`,
`gork_bot/ai_service/types.py`)

Embedded from the point where the search response is available: its HTTP
status code and its decoded JSON body (a JSON object, given as its entry
list).  `random.choice` over the result list is the `choose_result`
parameter; a raised Python exception is `Except.error`. -/

/-- Decoded JSON values. -/
inductive JVal
  | null
  | str (s : List Char)
  | num (n : Int)
  | arr (xs : List JVal)
  | dict (entries : List (List Char × JVal))

/-- Python truthiness of a decoded JSON value. -/
def JVal.py_truthy : JVal → Bool
  | JVal.null => false
  | JVal.str s => !s.isEmpty
  | JVal.num n => n != 0
  | JVal.arr xs => !xs.isEmpty
  | JVal.dict es => !es.isEmpty

/-- `x.get(k)`: a `None`-returning key lookup on a dict; an
`AttributeError` when `x` is not a dict — in particular when `x` is the
`None` returned by a previous `.get`. -/
def pyGet : Option JVal → List Char → Except (List Char) (Option JVal)
  | some (JVal.dict es), k => Except.ok (es.lookup k)
  | _, _ => Except.error ("AttributeError: no attribute get".data)

/-- `Response.get_internet_gif`: non-success status or a missing or falsy
result list resolve to no media; otherwise a result is chosen and
`choice.get("media_formats").get("gif").get("url")` is read — the chained
`.get` calls raise when an intermediate key is missing; a falsy final value
resolves to no media.  (`random.choice` on a truthy non-list raises, which
the embedding reports as a `TypeError`.) -/
def Response.get_internet_gif (choose_result : List JVal → JVal)
    (status_code : Int) (data : List (List Char × JVal)) :
    Except (List Char) (Option JVal) :=
  if status_code ≠ 200 then Except.ok none
  else
    match data.lookup "results".data with
    | none => Except.ok none
    | some results =>
        if !results.py_truthy then Except.ok none
        else
          match results with
          | JVal.arr items =>
              let choice := choose_result items
              match pyGet (some choice) "media_formats".data with
              | Except.error e => Except.error e
              | Except.ok o1 =>
                  match pyGet o1 "gif".data with
                  | Except.error e => Except.error e
                  | Except.ok o2 =>
                      match pyGet o2 "url".data with
                      | Except.error e => Except.error e
                      | Except.ok gif =>
                          match gif with
                          | none => Except.ok none
                          | some g =>
                              if !g.py_truthy then Except.ok none
                              else Except.ok (some g)
          | _ => Except.error ("TypeError: random.choice takes a sequence".data)

/-- C7: the first three conjuncts confirm the handled failures (non-success
status, missing result list, empty result list, and a result whose
`media_formats.gif` object lacks the `url` key all resolve to no media);
the last conjunct evaluates the code at the failing input: a 200 response
whose single — hence chosen — result is missing `media_formats` entirely
makes `choice.get("media_formats").get("gif")` call `.get` on `None`, and
an `AttributeError` propagates where the claim requires "no media". -/
theorem C7_missing_media_field_raises_attribute_error :
    Response.get_internet_gif (fun xs => xs.headD JVal.null) 404
      [("results".data, JVal.arr [JVal.dict []])] = Except.ok none ∧
    Response.get_internet_gif (fun xs => xs.headD JVal.null) 200 [] =
      Except.ok none ∧
    Response.get_internet_gif (fun xs => xs.headD JVal.null) 200
      [("results".data, JVal.arr [])] = Except.ok none ∧
    Response.get_internet_gif (fun xs => xs.headD JVal.null) 200
      [("results".data, JVal.arr [JVal.dict [("media_formats".data,
        JVal.dict [("gif".data, JVal.dict [])])]])] = Except.ok none ∧
    Response.get_internet_gif (fun xs => xs.headD JVal.null) 200
      [("results".data, JVal.arr [JVal.dict []])] =
      Except.error ("AttributeError: no attribute get".data) :=
  ⟨rfl, rfl, rfl, rfl, rfl⟩

/-! ## Chat completion configuration guard
(`gork_bot/ai_service/requests.py` with `Instructions` from
`gork_bot/ai_service/types.py`) -/

/-- `Instructions.__init__`: both parts are stored stripped. -/
structure Instructions where
  identity : List Char
  instructions : List Char
  deriving Repr, DecidableEq

/-- The `Instructions` constructor. -/
def Instructions.make (identity instructions : List Char) : Instructions :=
  { identity := py_strip identity, instructions := py_strip instructions }

/-- Python truthiness of an `Instructions` instance: the class defines
neither a boolean conversion nor a length, so every instance is truthy. -/
def Instructions.py_truthy (_ : Instructions) : Bool := true

/-- The configuration guard of `ResponseBuilder.get_chat_completion`: build
the `Instructions` object from the configured identity and instruction
texts, then raise when `not model_name or not model_instructions`. -/
def get_chat_completion_config_check (model_name : List Char)
    (identity instructions : List Char) : Except (List Char) Instructions :=
  let model_instructions := Instructions.make identity instructions
  if model_name.isEmpty || !model_instructions.py_truthy then
    Except.error ("Model and input must be set before getting a response.".data)
  else Except.ok model_instructions

/-- C8: evaluation at the failing input.  With the valid model name
"gpt-4.1-mini" and an empty configured instructions text the guard does not
raise — `not model_instructions` tests the always-truthy `Instructions`
object, never the text — although the claim requires a configuration
error; an empty model identifier does raise. -/
theorem C8_empty_instructions_pass_the_config_guard :
    get_chat_completion_config_check "gpt-4.1-mini".data [] [] =
      Except.ok (Instructions.make [] []) ∧
    get_chat_completion_config_check [] "id".data "rules".data =
      Except.error
        ("Model and input must be set before getting a response.".data) :=
  ⟨rfl, rfl⟩

/-! ## Bot construction (`gork_bot/bot.py`, `GorkBot.__init__`) -/

/-- The constructor guard of `GorkBot.__init__`: after loading both
configurations it raises a `ValueError` when streaming output and media
posting are enabled together. -/
def GorkBot.init_check (stream_output post_media : Bool) :
    Except (List Char) Unit :=
  if stream_output && post_media then
    Except.error (String.data
      "Media posting is not supported in streaming mode. Please disable streaming or set post_media to False.")
  else Except.ok ()

/-- C10: constructing the bot raises exactly when streaming output and
media posting are both enabled; each feature alone is accepted. -/
theorem C10_streaming_excludes_media_posting
    (stream_output post_media : Bool) :
    (∃ e, GorkBot.init_check stream_output post_media = Except.error e) ↔
      (stream_output = true ∧ post_media = true) := by
  cases stream_output <;> cases post_media <;> simp [GorkBot.init_check]
